import Mathlib

/-!
Shallow embedding of the stattrak demo-stats pipeline.

The TypeScript controllers read parsed demo data (event rows and grenade
trajectory rows produced by the demo parser) and aggregate statistics into
JavaScript `Map`s keyed by player name.  The embedding represents a
`Map<string, A>` as an association list `List (String × A)` in insertion
order, with `mapGet`/`mapSet` mirroring `Map.get` / `Map.set`.  The Go
prototype (`demoParse/extractStats.go`) registers event handlers on a
demo parser; its handlers are embedded as fold steps over the dispatched
event stream.
-/

namespace Stattrak

/-! ### Map helpers -/

/-- `Map.get` on an insertion-ordered association list. -/
def mapGet {α : Type} : List (String × α) → String → Option α
  | [], _ => none
  | (a, b) :: rest, k => if a = k then some b else mapGet rest k

/-- `Map.set`: update in place when the key exists, else append. -/
def mapSet {α : Type} : List (String × α) → String → α → List (String × α)
  | [], k, v => [(k, v)]
  | (a, b) :: rest, k, v =>
      if a = k then (k, v) :: rest else (a, b) :: mapSet rest k v

/-- The `has`/`get`/`set` counting idiom used across the controllers:
`if (m.has(k)) m.set(k, m.get(k)! + 1) else m.set(k, 1)`. -/
def bump : List (String × Nat) → String → List (String × Nat)
  | [], k => [(k, 1)]
  | (a, n) :: rest, k =>
      if a = k then (a, n + 1) :: rest else (a, n) :: bump rest k

/-- Sum of all values of a `Map<string, number>` of counters. -/
def sumValues (m : List (String × Nat)) : Nat := (m.map Prod.snd).sum

/-!
### Flash aggregation
Embedded from `stattrakServer/source/controllers/flashes.ts`.

`parseEvent(filePath, "player_blind", ["is_warmup_period", "team_num"])`
yields one row per blinded victim; `user_*` fields describe the blinded
player and `attacker_*` fields the thrower, with team numbers sampled at
the event's tick.  `parseGrenades` yields grenade trajectory rows (many
rows per grenade entity).  Both row sets are inputs of the embedding.
-/

/-- A `player_blind` event row (`FlashEventWarmup` in `flashes.ts`). -/
structure FlashEventW where
  user_name : String
  user_steamid : String
  attacker_name : String
  user_team_num : Int
  attacker_team_num : Int
  blind_duration : Rat
  is_warmup_period : Bool
  tick : Nat
deriving DecidableEq, Repr

/-- A `parseGrenades` trajectory row; `flashes.ts` reads
`grenade_type`, `entity_id` and `name`. -/
structure GrenadeRow where
  name : String
  grenade_type : String
  entity_id : Nat
  tick : Nat
deriving DecidableEq, Repr

/-- The per-player flash record built by `getFlashes` (`FlashStat`). -/
structure FlashStat where
  username : String
  team_flashes : Nat
  clean_flashes : Nat
  flashes_thrown : Nat
  total_flashes : Nat
  team_flash_time : Rat
  clean_flash_time : Rat
  total_flash_time : Rat
deriving DecidableEq, Repr

/-- The dedup idiom
`flashes.filter((value, index, self) => index === self.findIndex(t => t.entity_id === value.entity_id))`:
keep each row exactly when it is the first row carrying its `entity_id`. -/
def distinctByEntity : List GrenadeRow → List GrenadeRow
  | [] => []
  | g :: rest =>
      g :: distinctByEntity (rest.filter (fun h => !(h.entity_id == g.entity_id)))
termination_by l => l.length
decreasing_by
  simp only [List.length_cons]
  exact Nat.lt_succ_of_le (List.length_filter_le _ _)

/-- `getFlashesThrownByPlayer`: flashbang rows, deduplicated by grenade
`entity_id`, counted per thrower name.  No warmup filter is applied. -/
def getFlashesThrownByPlayer (grenades : List GrenadeRow) : List (String × Nat) :=
  let flashes := grenades.filter (fun g => g.grenade_type == "flashbang")
  let distinctFlashes := distinctByEntity flashes
  distinctFlashes.foldl (fun m flash => bump m flash.name) []

/-- `getFlashEvents`: `player_blind` rows with `is_warmup_period === false`. -/
def getFlashEvents (events : List FlashEventW) : List FlashEventW :=
  events.filter (fun e => e.is_warmup_period == false)

/-- Body of the `flashEvents.forEach` loop in `getFlashes`.  When the
victim (`user_name`) already has a record, one bucket and the totals are
incremented once; otherwise a fresh record is built with the chosen
bucket and `total_flashes` already set to 1 and then incremented again
(lines 78–82 of `flashes.ts`). -/
def flashStep (flashesByPlayer : List (String × Nat))
    (lb : List (String × FlashStat)) (event : FlashEventW) :
    List (String × FlashStat) :=
  let isTeamFlash := event.user_team_num = event.attacker_team_num
  match mapGet lb event.user_name with
  | some record =>
      let r1 :=
        if isTeamFlash then
          { record with
              team_flashes := record.team_flashes + 1,
              team_flash_time := record.team_flash_time + event.blind_duration }
        else
          { record with
              clean_flashes := record.clean_flashes + 1,
              clean_flash_time := record.clean_flash_time + event.blind_duration }
      let r2 :=
        { r1 with
            total_flashes := r1.total_flashes + 1,
            total_flash_time := r1.total_flash_time + event.blind_duration }
      mapSet lb event.user_name r2
  | none =>
      let record : FlashStat :=
        { username := event.user_name
          team_flashes := if isTeamFlash then 1 else 0
          clean_flashes := if isTeamFlash then 0 else 1
          flashes_thrown := (mapGet flashesByPlayer event.user_name).getD 0
          total_flashes := 1
          team_flash_time := if isTeamFlash then event.blind_duration else 0
          clean_flash_time := if isTeamFlash then 0 else event.blind_duration
          total_flash_time := event.blind_duration }
      let record2 :=
        if event.user_team_num = event.attacker_team_num then
          { record with team_flashes := record.team_flashes + 1 }
        else
          { record with clean_flashes := record.clean_flashes + 1 }
      let record3 := { record2 with total_flashes := record2.total_flashes + 1 }
      mapSet lb event.user_name record3

/-- `getFlashes`: fold the non-warmup blind events into a leaderboard
keyed by the blinded player's name. -/
def getFlashes (grenades : List GrenadeRow) (events : List FlashEventW) :
    List (String × FlashStat) :=
  let flashEvents := getFlashEvents events
  let flashesByPlayer := getFlashesThrownByPlayer grenades
  flashEvents.foldl (flashStep flashesByPlayer) []

/-!
### Kill aggregation
Embedded from the `killsPerRound` controller: `player_death` rows are
filtered to non-warmup, then to cross-team kills, then counted per
attacker round by round up to the highest `total_rounds_played` seen in
the unfiltered row set (`Math.max` over an empty array is `-Infinity`,
in which case the round loop never runs).
-/

/-- A `player_death` event row with the fields the controller reads. -/
structure KillEvent where
  attacker_name : String
  user_name : String
  attacker_team_name : String
  user_team_name : String
  total_rounds_played : Nat
  is_warmup_period : Bool
  tick : Nat
deriving DecidableEq, Repr

/-- `Math.max(...kills.map(kill => kill.total_rounds_played))` for a
nonempty row set. -/
def maxRound (kills : List KillEvent) : Nat :=
  kills.foldl (fun m k => max m k.total_rounds_played) 0

/-- The rounds the `for` loop visits: `0..latestRoundWithKill`; none when
the row set is empty (`Math.max()` of nothing is `-Infinity`). -/
def roundsRange (kills : List KillEvent) : List Nat :=
  if kills.isEmpty then [] else List.range (maxRound kills + 1)

/-- `killsPerRound`'s aggregation: the `killsPerPlayer` map. -/
def killsPerPlayer (kills : List KillEvent) : List (String × Nat) :=
  let killsNoWarmup := kills.filter (fun k => k.is_warmup_period == false)
  let validKills :=
    killsNoWarmup.filter (fun k => !(k.attacker_team_name == k.user_team_name))
  (roundsRange kills).foldl
    (fun m round =>
      (validKills.filter (fun k => k.total_rounds_played == round)).foldl
        (fun m kill => bump m kill.attacker_name) m)
    []

/-!
### Persisted kill records
Embedded from the file-store's `getKillsByMatchId` (sort by
`(round_number, tick)` using a numeric comparator) and
`MatchService.getMatchKills` (404 on an unknown match id, then a field
mapping carrying a 1-based `id`).
-/

/-- A row of the persisted `kills` table. -/
structure KillRow where
  match_id : String
  round_number : Nat
  tick : Nat
  attacker_steam_id : String
  attacker_name : String
  attacker_team : String
  victim_steam_id : String
  victim_name : String
  victim_team : String
  weapon : String
  headshot : Bool
  wallbang : Bool
  through_smoke : Bool
  no_scope : Bool
  attacker_blind : Bool
  assister_steam_id : Option String
  assister_name : Option String
  flash_assist : Bool
deriving DecidableEq, Repr

/-- The order the comparator
`(a, b) => a.round_number !== b.round_number ? a.round_number - b.round_number : a.tick - b.tick`
sorts by. -/
def killRowLE (a b : KillRow) : Prop :=
  a.round_number < b.round_number ∨
    (a.round_number = b.round_number ∧ a.tick ≤ b.tick)

instance : DecidableRel killRowLE := fun a b => by
  unfold killRowLE
  exact inferInstance

instance : IsTotal KillRow killRowLE :=
  ⟨by
    intro a b
    unfold killRowLE
    omega⟩

instance : IsTrans KillRow killRowLE :=
  ⟨by
    intro a b c hab hbc
    unfold killRowLE at *
    omega⟩

/-- `getKillsByMatchId`: filter the table to the match, sort by
`(round_number, tick)`. -/
def getKillsByMatchId (rows : List KillRow) (matchId : String) : List KillRow :=
  List.insertionSort killRowLE (rows.filter (fun r => r.match_id == matchId))

/-- The API `Kill` object produced by `MatchService.getMatchKills`. -/
structure Kill where
  id : Nat
  matchId : String
  roundNumber : Nat
  tick : Nat
  attackerSteamId : String
  attackerName : String
  attackerTeam : String
  victimSteamId : String
  victimName : String
  victimTeam : String
  weapon : String
  headshot : Bool
  wallbang : Bool
  throughSmoke : Bool
  noScope : Bool
  attackerBlind : Bool
  assisterSteamId : Option String
  assisterName : Option String
  flashAssist : Bool
deriving DecidableEq, Repr

/-- `NotFoundError("Match")` thrown by `getMatchKills`. -/
structure NotFoundError where
  resource : String
deriving DecidableEq, Repr

/-- The row-to-record mapping inside `killRecords.map((row, index) => ...)`. -/
def rowToKill (idx : Nat) (row : KillRow) : Kill :=
  { id := idx + 1
    matchId := row.match_id
    roundNumber := row.round_number
    tick := row.tick
    attackerSteamId := row.attacker_steam_id
    attackerName := row.attacker_name
    attackerTeam := row.attacker_team
    victimSteamId := row.victim_steam_id
    victimName := row.victim_name
    victimTeam := row.victim_team
    weapon := row.weapon
    headshot := row.headshot
    wallbang := row.wallbang
    throughSmoke := row.through_smoke
    noScope := row.no_scope
    attackerBlind := row.attacker_blind
    assisterSteamId := row.assister_steam_id
    assisterName := row.assister_name
    flashAssist := row.flash_assist }

/-- `MatchService.getMatchKills`: 404 when the match id is unknown, else
the sorted rows mapped to `Kill` objects with 1-based ids. -/
def getMatchKills (matchTable : List String) (rows : List KillRow)
    (matchId : String) : Except NotFoundError (List Kill) :=
  if matchTable.contains matchId then
    .ok ((getKillsByMatchId rows matchId).enum.map (fun p => rowToKill p.1 p.2))
  else
    .error ⟨"Match"⟩

/-!
### Weapon stats aggregation
Embedded from the file-store's `getWeaponStatsBySteamId`: per-match
weapon rows of one player are grouped by weapon, the counters summed and
`matches_used` counted, then the per-weapon aggregates are sorted by
`total_kills` descending.
-/

/-- A row of the persisted `weapon_stats` table. -/
structure PlayerWeaponRow where
  steam_id : String
  match_id : String
  weapon : String
  kills : Nat
  headshots : Nat
  damage : Nat
  shots : Nat
  hits : Nat
deriving DecidableEq, Repr

/-- One entry of the `byWeapon` accumulator object. -/
structure WeaponAggregate where
  weapon : String
  total_kills : Nat
  total_headshots : Nat
  total_damage : Nat
  total_shots : Nat
  total_hits : Nat
  matches_used : Nat
deriving DecidableEq, Repr

/-- The zero entry created when a weapon key is first seen. -/
def zeroAggregate (w : String) : WeaponAggregate := ⟨w, 0, 0, 0, 0, 0, 0⟩

/-- The `+=` block applied to a weapon's entry for one row. -/
def waddRow (a : WeaponAggregate) (r : PlayerWeaponRow) : WeaponAggregate :=
  { a with
      total_kills := a.total_kills + r.kills
      total_headshots := a.total_headshots + r.headshots
      total_damage := a.total_damage + r.damage
      total_shots := a.total_shots + r.shots
      total_hits := a.total_hits + r.hits
      matches_used := a.matches_used + 1 }

/-- One iteration of the `for (const record of records)` loop over the
keyed accumulator (creating the zero entry if absent, then `+=`). -/
def wupdate : List (String × WeaponAggregate) → PlayerWeaponRow →
    List (String × WeaponAggregate)
  | [], r => [(r.weapon, waddRow (zeroAggregate r.weapon) r)]
  | (w, a) :: rest, r =>
      if w = r.weapon then (w, waddRow a r) :: rest else (w, a) :: wupdate rest r

/-- The order of `sort((a, b) => b.total_kills - a.total_kills)`. -/
def aggLE (a b : WeaponAggregate) : Prop := b.total_kills ≤ a.total_kills

instance : DecidableRel aggLE := fun a b => by
  unfold aggLE
  exact inferInstance

instance : IsTotal WeaponAggregate aggLE :=
  ⟨by
    intro a b
    unfold aggLE
    omega⟩

instance : IsTrans WeaponAggregate aggLE :=
  ⟨by
    intro a b c hab hbc
    unfold aggLE at *
    omega⟩

/-- `getWeaponStatsBySteamId`: the player's rows grouped by weapon,
sorted by total kills descending. -/
def getWeaponStatsBySteamId (rows : List PlayerWeaponRow) (steamId : String) :
    List WeaponAggregate :=
  let records := rows.filter (fun r => r.steam_id == steamId)
  let byWeapon := records.foldl wupdate []
  List.insertionSort aggLE (byWeapon.map Prod.snd)

/-!
### Round end reasons
`RoundEndReason` is embedded from `stattrakServer/build/types/enums.js`;
`RoundEndEvent.reason` is a numeric code
(`common/example/example.interface.ts`).
-/

/-- The closed `RoundEndReason` enum. -/
inductive RoundEndReason where
  | TARGET_BOMBED
  | BOMB_DEFUSED
  | CT_WIN
  | T_WIN
  | CT_ELIMINATION
  | T_ELIMINATION
  | TIME_RAN_OUT
  | HOSTAGES_RESCUED
  | TARGET_SAVED
  | DRAW
deriving DecidableEq, Repr

/-- The fatal error for a reason code missing from the table. -/
structure UnmappedEndReasonError where
  reason : Nat
deriving DecidableEq, Repr

/-- Modelled from the spec: the repository declares the `RoundEndReason`
enum and the numeric `RoundEndEvent.reason` field but contains no
conversion between them; the spec's round aggregator requires a fixed
enum table.  The concrete code assignments follow the demo format's
conventional `round_end` reason codes. -/
def endReasonTable (code : Nat) : Option RoundEndReason :=
  match code with
  | 1 => some .TARGET_BOMBED
  | 4 => some .CT_WIN
  | 5 => some .T_WIN
  | 7 => some .BOMB_DEFUSED
  | 8 => some .CT_ELIMINATION
  | 9 => some .T_ELIMINATION
  | 10 => some .DRAW
  | 11 => some .HOSTAGES_RESCUED
  | 12 => some .TARGET_SAVED
  | 13 => some .TIME_RAN_OUT
  | _ => none

/-- Modelled from the spec: conversion of a `RoundEnd` reason code goes
through `endReasonTable` and fails with `UnmappedEndReasonError` on a
code the table does not list, never defaulting. -/
def mapEndReason (code : Nat) : Except UnmappedEndReasonError RoundEndReason :=
  match endReasonTable code with
  | some r => .ok r
  | none => .error ⟨code⟩

/-!
### Leaderboard assembly
Embedded from the `getLeaderBoard` controller: one record per
`player_team` event row, joining the kill-count map and the flash-stat
map by player name.  The `getKills` controller it imports is not part of
the source tree; its `Map<string, number>` of kills per player is
modelled by the repository's own `killsPerRound` aggregation
(`killsPerPlayer` above).
-/

/-- A `player_team` event row (`TeamEvent`). -/
structure TeamEvent where
  disconnect : Bool
  event_name : String
  isbot : Bool
  oldteam : Int
  silent : Bool
  team : Int
  tick : Nat
  user_name : String
  user_steamid : String
deriving DecidableEq, Repr

/-- A `LeaderBoardRecord` as assembled by `getLeaderBoard`. -/
structure LeaderBoardRecord where
  user_name : String
  user_steamid : String
  user_kills : Nat
  flashes_thrown : Nat
  total_flashes : Nat
  clean_flashes : Nat
  team_flashes : Nat
  total_flash_time : Rat
  clean_flash_time : Rat
  team_flash_time : Rat
deriving DecidableEq, Repr

/-- The parsed demo data every controller reads (each controller
re-parses the same demo file, so one value of this structure is the
whole pipeline input). -/
structure ParsedDemoData where
  players : List TeamEvent
  kills : List KillEvent
  flashEvents : List FlashEventW
  grenades : List GrenadeRow
deriving DecidableEq, Repr

/-- `getLeaderBoard`: build one record per `player_team` row from the
kill map and the flash map (`?? 0` defaults when a player is absent). -/
def getLeaderBoard (d : ParsedDemoData) : List LeaderBoardRecord :=
  let killRecords := killsPerPlayer d.kills
  let flashRecords := getFlashes d.grenades d.flashEvents
  d.players.map (fun player =>
    let flashRecord := mapGet flashRecords player.user_name
    { user_name := player.user_name
      user_steamid := player.user_steamid
      user_kills := (mapGet killRecords player.user_name).getD 0
      flashes_thrown := (flashRecord.map FlashStat.flashes_thrown).getD 0
      total_flashes := (flashRecord.map FlashStat.total_flashes).getD 0
      clean_flashes := (flashRecord.map FlashStat.clean_flashes).getD 0
      team_flashes := (flashRecord.map FlashStat.team_flashes).getD 0
      total_flash_time := (flashRecord.map FlashStat.total_flash_time).getD 0
      clean_flash_time := (flashRecord.map FlashStat.clean_flash_time).getD 0
      team_flash_time := (flashRecord.map FlashStat.team_flash_time).getD 0 })

/-!
### Go extractor (`demoParse/extractStats.go`)
The parser dispatches each `PlayerFlashed`/`PlayerHurt` event to every
registered handler during `ParseToEnd`; a handler is a closure mutating
captured variables, embedded as a fold step.  `getPlayers` registers its
handler and returns `all_players` immediately — `ParseToEnd` runs only
later (inside `getTeamFlashes`), so at the `return` no event has been
dispatched yet.
-/

/-- A player reference as used by the Go handlers. -/
structure GoPlayer where
  name : String
deriving DecidableEq, Repr

/-- The game-state snapshot a `PlayerFlashed` handler can query. -/
structure GameStateSnap where
  isMatchStarted : Bool
  ctMembers : List GoPlayer
  tMembers : List GoPlayer
deriving DecidableEq, Repr

/-- Body of the `PlayerFlashed` closure in `getPlayers`: once the match
has started, overwrite `all_players` with CT members ++ T members. -/
def playersHandler (acc : List GoPlayer) (gs : GameStateSnap) : List GoPlayer :=
  if gs.isMatchStarted then gs.ctMembers ++ gs.tMembers else acc

/-- The events dispatched between `RegisterEventHandler` and the
`return all_players` statement: none, because `getPlayers` never calls
`ParseToEnd`/`ParseNextFrame` before returning. -/
def eventsDispatchedBeforeReturn (_demoEvents : List GameStateSnap) :
    List GameStateSnap := []

/-- `getPlayers`: the value of `all_players` at the `return`, i.e. the
accumulator after the events dispatched so far (none). -/
def getPlayers (demoEvents : List GameStateSnap) : List GoPlayer :=
  (eventsDispatchedBeforeReturn demoEvents).foldl playersHandler []

/-- The count `main` prints: `len(players)` for the returned slice. -/
def mainPlayerCount (demoEvents : List GameStateSnap) : Nat :=
  (getPlayers demoEvents).length

/-- What the registered handler accumulates once `ParseToEnd` has
dispatched the whole demo (the value the orphaned captured variable
ends at, never observed by `main`). -/
def allPlayersAfterParse (demoEvents : List GameStateSnap) : List GoPlayer :=
  demoEvents.foldl playersHandler []

/-- A `PlayerHurt` event; `Attacker` is a possibly-nil pointer (world or
fall damage carries no attacker). -/
structure HurtEvent where
  player_name : String
  attacker : Option GoPlayer
  health_damage : Nat
  armor_damage : Nat
deriving DecidableEq, Repr

/-- The run-time failure of dereferencing a nil pointer. -/
inductive GoPanic where
  | nilPointerDereference
deriving DecidableEq, Repr

/-- A row appended by the `getInjuries` handler. -/
structure InjuryRow where
  victim : String
  attacker : String
  health_damage : Nat
  armor_damage : Nat
  time_ms : Int
deriving DecidableEq, Repr

/-- `e.Attacker.Name`: the field access panics when the pointer is nil. -/
def attackerName (e : HurtEvent) : Except GoPanic String :=
  match e.attacker with
  | none => .error .nilPointerDereference
  | some a => .ok a.name

/-- Body of the `PlayerHurt` handler in `getInjuries` (the same
unguarded `e.Attacker.Name` access appears in `setInjuriesEventHandler`
and the inline handler in `main`): build the row appended to the
series. -/
def injuryRow (e : HurtEvent) (timeMs : Int) : Except GoPanic InjuryRow :=
  match attackerName e with
  | .error p => .error p
  | .ok name => .ok ⟨e.player_name, name, e.health_damage, e.armor_damage, timeMs⟩

/-!
## Supporting lemmas
-/

theorem mapGet_mapSet_self {α : Type} (m : List (String × α)) (k : String) (v : α) :
    mapGet (mapSet m k v) k = some v := by
  induction m with
  | nil => simp [mapSet, mapGet]
  | cons hd tl ih =>
      obtain ⟨a, b⟩ := hd
      by_cases h : a = k
      · simp [mapSet, mapGet, h]
      · simp [mapSet, mapGet, h, ih]

theorem mapGet_mapSet_ne {α : Type} (m : List (String × α)) (k k' : String) (v : α)
    (h : k ≠ k') : mapGet (mapSet m k v) k' = mapGet m k' := by
  induction m with
  | nil => simp [mapSet, mapGet, h]
  | cons hd tl ih =>
      obtain ⟨a, b⟩ := hd
      by_cases ha : a = k
      · subst ha
        simp [mapSet, mapGet, h]
      · simp only [mapSet, if_neg ha]
        by_cases ha' : a = k'
        · simp [mapGet, ha']
        · simp [mapGet, ha', ih]

theorem sumValues_bump (m : List (String × Nat)) (k : String) :
    sumValues (bump m k) = sumValues m + 1 := by
  induction m with
  | nil => simp [bump, sumValues]
  | cons hd tl ih =>
      obtain ⟨a, n⟩ := hd
      by_cases h : a = k
      · simp [bump, h, sumValues]
        omega
      · simp [bump, h, sumValues] at ih ⊢
        omega

theorem mapGet_bump (m : List (String × Nat)) (k p : String) :
    (mapGet (bump m k) p).getD 0 =
      (mapGet m p).getD 0 + (if k = p then 1 else 0) := by
  induction m with
  | nil =>
      by_cases h : k = p <;> simp [bump, mapGet, h]
  | cons hd tl ih =>
      obtain ⟨a, n⟩ := hd
      by_cases ha : a = k
      · subst ha
        by_cases hp : a = p <;> simp [bump, mapGet, hp]
      · by_cases hp : a = p
        · subst hp
          have : ¬ k = a := fun h => ha h.symm
          simp [bump, if_neg ha, mapGet, this]
        · simp [bump, if_neg ha, mapGet, hp, ih]

theorem sumValues_foldl_bump {α : Type} (l : List α) (f : α → String)
    (m : List (String × Nat)) :
    sumValues (l.foldl (fun m x => bump m (f x)) m) = sumValues m + l.length := by
  induction l generalizing m with
  | nil => simp
  | cons x xs ih =>
      simp only [List.foldl_cons, ih, sumValues_bump, List.length_cons]
      omega

theorem sum_map_add {α : Type} (R : List α) (f g : α → Nat) :
    (R.map (fun r => f r + g r)).sum = (R.map f).sum + (R.map g).sum := by
  induction R with
  | nil => simp
  | cons r rs ih => simp [ih]; omega

theorem sum_map_ite_eq_count (R : List Nat) (v : Nat) :
    (R.map (fun r => if v = r then 1 else 0)).sum = R.count v := by
  induction R with
  | nil => simp
  | cons r rs ih =>
      simp only [List.map_cons, List.sum_cons, List.count_cons, ih, beq_iff_eq]
      by_cases h : v = r
      · simp [h, Nat.add_comm]
      · simp [h, Ne.symm h]

/-- Summed over a duplicate-free list of rounds covering every row's
round, the per-round group sizes add up to the whole row set. -/
theorem sum_groups (R : List Nat) (hR : R.Nodup) (l : List KillEvent)
    (f : KillEvent → Nat) (h : ∀ k ∈ l, f k ∈ R) :
    (R.map (fun r => (l.filter (fun k => f k == r)).length)).sum = l.length := by
  induction l with
  | nil => simp
  | cons x xs ih =>
      have hxs : ∀ k ∈ xs, f k ∈ R := fun k hk => h k (List.mem_cons_of_mem _ hk)
      have hx : f x ∈ R := h x (List.mem_cons_self _ _)
      have step : ∀ r : Nat,
          ((x :: xs).filter (fun k => f k == r)).length =
            (xs.filter (fun k => f k == r)).length + (if f x = r then 1 else 0) := by
        intro r
        by_cases hr : f x = r
        · simp [List.filter_cons, hr]
        · simp [List.filter_cons, hr]
      calc (R.map (fun r => ((x :: xs).filter (fun k => f k == r)).length)).sum
          = (R.map (fun r =>
              (xs.filter (fun k => f k == r)).length + (if f x = r then 1 else 0))).sum := by
            exact congrArg List.sum (List.map_congr_left (fun r _ => step r))
        _ = (R.map (fun r => (xs.filter (fun k => f k == r)).length)).sum
              + (R.map (fun r => if f x = r then 1 else 0)).sum := by
            exact sum_map_add R _ _
        _ = xs.length + R.count (f x) := by
            rw [ih hxs, sum_map_ite_eq_count]
        _ = (x :: xs).length := by
            rw [List.count_eq_one_of_mem hR hx]
            simp [Nat.add_comm]

theorem le_foldl_max (l : List KillEvent) (a : Nat) :
    (∀ k ∈ l, k.total_rounds_played ≤ l.foldl (fun m k => max m k.total_rounds_played) a)
      ∧ a ≤ l.foldl (fun m k => max m k.total_rounds_played) a := by
  induction l generalizing a with
  | nil => simp
  | cons x xs ih =>
      refine ⟨?_, ?_⟩
      · intro k hk
        rcases List.mem_cons.mp hk with h | h
        · have hup : k.total_rounds_played ≤ max a x.total_rounds_played := by
            rw [h]
            exact Nat.le_max_right _ _
          exact le_trans hup (ih (max a x.total_rounds_played)).2
        · exact (ih (max a x.total_rounds_played)).1 k h
      · exact le_trans (Nat.le_max_left a x.total_rounds_played)
          (ih (max a x.total_rounds_played)).2

theorem mem_maxRound (kills : List KillEvent) (k : KillEvent) (hk : k ∈ kills) :
    k.total_rounds_played ≤ maxRound kills :=
  (le_foldl_max kills 0).1 k hk

/-- The per-round folds taken together `bump` once per valid kill: the
grand total of the counter map is the number of processed group rows. -/
theorem sumValues_rounds_fold (R : List Nat) (valid : List KillEvent)
    (m : List (String × Nat)) :
    sumValues (R.foldl
      (fun m round =>
        (valid.filter (fun k => k.total_rounds_played == round)).foldl
          (fun m kill => bump m kill.attacker_name) m)
      m)
    = sumValues m
      + (R.map (fun r =>
          (valid.filter (fun k => k.total_rounds_played == r)).length)).sum := by
  induction R generalizing m with
  | nil => simp
  | cons r rs ih =>
      simp only [List.foldl_cons, ih, sumValues_foldl_bump, List.map_cons, List.sum_cons]
      omega

theorem rounds_fold_of_no_round (valid : List KillEvent) (R : List Nat)
    (m : List (String × Nat))
    (h : ∀ r ∈ R, ∀ k ∈ valid, ¬ k.total_rounds_played = r) :
    R.foldl
      (fun m round =>
        (valid.filter (fun k => k.total_rounds_played == round)).foldl
          (fun m kill => bump m kill.attacker_name) m)
      m = m := by
  induction R generalizing m with
  | nil => rfl
  | cons r rs ih =>
      have hempty : valid.filter (fun k => k.total_rounds_played == r) = [] :=
        List.filter_eq_nil_iff.mpr
          (fun k hk => by simp [h r (List.mem_cons_self _ _) k hk])
      simp only [List.foldl_cons, hempty, List.foldl_nil]
      exact ih m (fun r' hr' => h r' (List.mem_cons_of_mem _ hr'))

theorem foldl_max_init_mono (l : List KillEvent) {a b : Nat} (h : a ≤ b) :
    l.foldl (fun m k => max m k.total_rounds_played) a ≤
      l.foldl (fun m k => max m k.total_rounds_played) b := by
  induction l generalizing a b with
  | nil => exact h
  | cons x xs ih => exact ih (max_le_max h le_rfl)

theorem maxRound_le_cons (k : KillEvent) (kills : List KillEvent) :
    maxRound kills ≤ maxRound (k :: kills) :=
  foldl_max_init_mono kills (Nat.zero_le _)

/-- Dropping a warmup `player_death` row leaves the kill-count map
unchanged: the row is removed by the warmup filter, and the only other
thing it can influence, the top of the round loop's range, only adds
rounds whose kill group is empty. -/
theorem killsPerPlayer_warmup_cons (k : KillEvent) (kills : List KillEvent)
    (h : k.is_warmup_period = true) :
    killsPerPlayer (k :: kills) = killsPerPlayer kills := by
  unfold killsPerPlayer
  simp only []
  have hfilter :
      (k :: kills).filter (fun k => k.is_warmup_period == false) =
        kills.filter (fun k => k.is_warmup_period == false) := by
    simp [List.filter_cons, h]
  rw [hfilter]
  set valid :=
    (kills.filter (fun k => k.is_warmup_period == false)).filter
      (fun k => !(k.attacker_team_name == k.user_team_name)) with hvalid
  have hval_round : ∀ j ∈ valid, j.total_rounds_played ≤ maxRound kills := by
    intro j hj
    exact mem_maxRound kills j
      (List.mem_of_mem_filter (List.mem_of_mem_filter hj))
  by_cases hnil : kills.isEmpty = true
  · have : kills = [] := List.isEmpty_iff.mp hnil
    subst this
    have hv : valid = [] := by simp [hvalid]
    rw [hv]
    rw [rounds_fold_of_no_round [] _ [] (fun r _ j hj => absurd hj (List.not_mem_nil j))]
    rw [rounds_fold_of_no_round [] _ [] (fun r _ j hj => absurd hj (List.not_mem_nil j))]
  · rw [roundsRange, roundsRange, if_neg hnil]
    simp only [List.isEmpty_cons, if_neg (by simp : ¬ (false = true))]
    set a := maxRound kills with ha
    set b := maxRound (k :: kills) with hb
    have hab : a ≤ b := maxRound_le_cons k kills
    have hsplit : b + 1 = (a + 1) + (b - a) := by omega
    rw [hsplit, List.range_add, List.foldl_append]
    exact rounds_fold_of_no_round valid _ _
      (fun r hr j hj => by
        rcases List.mem_map.mp hr with ⟨x, _, hx⟩
        have : j.total_rounds_played ≤ a := hval_round j hj
        omega)

/-- Dropping a warmup `player_blind` row leaves the flash leaderboard
unchanged: `getFlashEvents` filters it out before the fold. -/
theorem getFlashes_warmup_cons (grenades : List GrenadeRow)
    (events : List FlashEventW) (e : FlashEventW)
    (h : e.is_warmup_period = true) :
    getFlashes grenades (e :: events) = getFlashes grenades events := by
  unfold getFlashes getFlashEvents
  simp [List.filter_cons, h]

theorem flashStep_some_team (fb : List (String × Nat))
    (lb : List (String × FlashStat)) (e : FlashEventW) (r : FlashStat)
    (h : mapGet lb e.user_name = some r)
    (ht : e.user_team_num = e.attacker_team_num) :
    flashStep fb lb e =
      mapSet lb e.user_name
        { r with
            team_flashes := r.team_flashes + 1,
            total_flashes := r.total_flashes + 1,
            team_flash_time := r.team_flash_time + e.blind_duration,
            total_flash_time := r.total_flash_time + e.blind_duration } := by
  simp [flashStep, h, ht]

theorem flashStep_some_clean (fb : List (String × Nat))
    (lb : List (String × FlashStat)) (e : FlashEventW) (r : FlashStat)
    (h : mapGet lb e.user_name = some r)
    (ht : ¬ e.user_team_num = e.attacker_team_num) :
    flashStep fb lb e =
      mapSet lb e.user_name
        { r with
            clean_flashes := r.clean_flashes + 1,
            total_flashes := r.total_flashes + 1,
            clean_flash_time := r.clean_flash_time + e.blind_duration,
            total_flash_time := r.total_flash_time + e.blind_duration } := by
  simp [flashStep, h, ht]

theorem flashStep_none_team (fb : List (String × Nat))
    (lb : List (String × FlashStat)) (e : FlashEventW)
    (h : mapGet lb e.user_name = none)
    (ht : e.user_team_num = e.attacker_team_num) :
    flashStep fb lb e =
      mapSet lb e.user_name
        { username := e.user_name
          team_flashes := 2
          clean_flashes := 0
          flashes_thrown := (mapGet fb e.user_name).getD 0
          total_flashes := 2
          team_flash_time := e.blind_duration
          clean_flash_time := 0
          total_flash_time := e.blind_duration } := by
  simp [flashStep, h, ht]

theorem flashStep_none_clean (fb : List (String × Nat))
    (lb : List (String × FlashStat)) (e : FlashEventW)
    (h : mapGet lb e.user_name = none)
    (ht : ¬ e.user_team_num = e.attacker_team_num) :
    flashStep fb lb e =
      mapSet lb e.user_name
        { username := e.user_name
          team_flashes := 0
          clean_flashes := 2
          flashes_thrown := (mapGet fb e.user_name).getD 0
          total_flashes := 2
          team_flash_time := 0
          clean_flash_time := e.blind_duration
          total_flash_time := e.blind_duration } := by
  simp [flashStep, h, ht]

/-!
## Claim theorems
-/

/-- C1 (amended).  For every `player_blind` event processed by the
`getFlashes` fold, exactly one of the two buckets
`{team_flashes, clean_flashes}` of the record keyed by the blinded
player's `user_name` is incremented — by 1 when that player already has
a record, by 2 when this event creates it — the bucket chosen by
comparing `user_team_num` with `attacker_team_num` carried on the event
(a self-flash satisfies the team comparison); every other player's
record is unchanged. -/
theorem flashStep_bucket_increment (fb : List (String × Nat))
    (lb : List (String × FlashStat)) (e : FlashEventW) :
    ∃ r', mapGet (flashStep fb lb e) e.user_name = some r' ∧
      (∀ p, ¬ p = e.user_name → mapGet (flashStep fb lb e) p = mapGet lb p) ∧
      ((e.user_team_num = e.attacker_team_num →
          r'.team_flashes =
            ((mapGet lb e.user_name).map FlashStat.team_flashes).getD 0 +
              (if (mapGet lb e.user_name).isSome then 1 else 2) ∧
          r'.clean_flashes =
            ((mapGet lb e.user_name).map FlashStat.clean_flashes).getD 0) ∧
        (¬ e.user_team_num = e.attacker_team_num →
          r'.clean_flashes =
            ((mapGet lb e.user_name).map FlashStat.clean_flashes).getD 0 +
              (if (mapGet lb e.user_name).isSome then 1 else 2) ∧
          r'.team_flashes =
            ((mapGet lb e.user_name).map FlashStat.team_flashes).getD 0)) := by
  cases hold : mapGet lb e.user_name with
  | some record =>
      by_cases hteam : e.user_team_num = e.attacker_team_num
      · rw [flashStep_some_team fb lb e record hold hteam]
        refine ⟨_, mapGet_mapSet_self lb e.user_name _,
          fun p hp => mapGet_mapSet_ne lb e.user_name p _ (fun hc => hp hc.symm),
          fun _ => ?_, fun hc => absurd hteam hc⟩
        simp [hold]
      · rw [flashStep_some_clean fb lb e record hold hteam]
        refine ⟨_, mapGet_mapSet_self lb e.user_name _,
          fun p hp => mapGet_mapSet_ne lb e.user_name p _ (fun hc => hp hc.symm),
          fun hc => absurd hc hteam, fun _ => ?_⟩
        simp [hold]
  | none =>
      by_cases hteam : e.user_team_num = e.attacker_team_num
      · rw [flashStep_none_team fb lb e hold hteam]
        refine ⟨_, mapGet_mapSet_self lb e.user_name _,
          fun p hp => mapGet_mapSet_ne lb e.user_name p _ (fun hc => hp hc.symm),
          fun _ => ?_, fun hc => absurd hteam hc⟩
        simp [hold]
      · rw [flashStep_none_clean fb lb e hold hteam]
        refine ⟨_, mapGet_mapSet_self lb e.user_name _,
          fun p hp => mapGet_mapSet_ne lb e.user_name p _ (fun hc => hp hc.symm),
          fun hc => absurd hc hteam, fun _ => ?_⟩
        simp [hold]

/-- C1 witness: the amended statement at a concrete first event. -/
theorem flashStep_bucket_increment_witness :
    ∃ r', mapGet (flashStep [] []
        ⟨"B", "sidB", "A", 2, 3, (5 : Rat), false, 100⟩) "B" = some r' := by
  obtain ⟨r', h1, -⟩ :=
    flashStep_bucket_increment [] [] ⟨"B", "sidB", "A", 2, 3, (5 : Rat), false, 100⟩
  exact ⟨r', h1⟩

/-- C1 counterexample: one non-warmup enemy flash (attacker "A" on team
3 blinds "B" on team 2).  The claim requires the thrower "A"'s enemy
bucket to be incremented by exactly 1; instead "A" gets no record at all
and the victim "B"'s `clean_flashes` bucket is set to 2. -/
theorem getFlashes_first_event_double_counts :
    mapGet (getFlashes [] [⟨"B", "sidB", "A", 2, 3, (5 : Rat), false, 100⟩]) "A"
        = none ∧
      (mapGet (getFlashes [] [⟨"B", "sidB", "A", 2, 3, (5 : Rat), false, 100⟩]) "B").map
          FlashStat.clean_flashes = some 2 := by
  refine ⟨rfl, rfl⟩

/-- C2 (amended).  Warmup blind events contribute to no flash bucket and
no blind-duration total, and warmup death events contribute to no kill
count.  (The third part of the original claim fails: see the
counterexample — `getFlashesThrownByPlayer` applies no warmup filter.) -/
theorem warmup_events_excluded :
    (∀ (grenades : List GrenadeRow) (events : List FlashEventW) (e : FlashEventW),
        e.is_warmup_period = true →
        getFlashes grenades (e :: events) = getFlashes grenades events) ∧
    (∀ (k : KillEvent) (kills : List KillEvent),
        k.is_warmup_period = true →
        killsPerPlayer (k :: kills) = killsPerPlayer kills) :=
  ⟨fun grenades events e h => getFlashes_warmup_cons grenades events e h,
   fun k kills h => killsPerPlayer_warmup_cons k kills h⟩

/-- C2 witness: a concrete warmup blind event and a concrete warmup
death event change nothing. -/
theorem warmup_events_excluded_witness :
    ((⟨"B", "sidB", "A", 2, 2, (3 : Rat), true, 10⟩ : FlashEventW).is_warmup_period
        = true ∧
      getFlashes [] [⟨"B", "sidB", "A", 2, 2, (3 : Rat), true, 10⟩] =
        getFlashes [] []) ∧
    ((⟨"A", "B", "CT", "T", 0, true, 20⟩ : KillEvent).is_warmup_period = true ∧
      killsPerPlayer [⟨"A", "B", "CT", "T", 0, true, 20⟩] = killsPerPlayer []) :=
  ⟨⟨rfl, warmup_events_excluded.1 [] [] _ rfl⟩,
   ⟨rfl, warmup_events_excluded.2 _ [] rfl⟩⟩

/-- C2 counterexample: a single flashbang trajectory row is counted
toward its thrower's `flashes_thrown` unconditionally —
`getFlashesThrownByPlayer` never consults any warmup information, so a
flashbang thrown during the warmup period (tick 100 here) still counts,
where the claim requires it to contribute nothing. -/
theorem warmup_flashbang_still_counted :
    mapGet (getFlashesThrownByPlayer [⟨"A", "flashbang", 7, 100⟩]) "A" = some 1 := by
  simp [getFlashesThrownByPlayer, distinctByEntity, bump, mapGet]

/-- C4 (amended).  The per-player kill counts of the `killsPerRound`
aggregation summed over all players equal the number of `player_death`
events outside warmup whose attacker team differs from the victim team
(same-team deaths are filtered out; no per-kill record is emitted). -/
theorem killsPerPlayer_total (kills : List KillEvent) :
    sumValues (killsPerPlayer kills) =
      ((kills.filter (fun k => k.is_warmup_period == false)).filter
        (fun k => !(k.attacker_team_name == k.user_team_name))).length := by
  unfold killsPerPlayer
  simp only []
  rw [sumValues_rounds_fold]
  simp only [sumValues, List.map_nil, List.sum_nil, Nat.zero_add]
  by_cases hk : kills.isEmpty = true
  · have hnil : kills = [] := List.isEmpty_iff.mp hk
    subst hnil
    simp [roundsRange]
  · rw [roundsRange, if_neg hk]
    refine sum_groups _ (List.nodup_range _) _ (fun k => k.total_rounds_played) ?_
    intro k hkv
    have h1 : k ∈ kills :=
      List.mem_of_mem_filter (List.mem_of_mem_filter hkv)
    exact List.mem_range.mpr (Nat.lt_succ_of_le (mem_maxRound kills k h1))

/-- C4 counterexample: a single non-warmup `player_death` event whose
attacker and victim are on the same team.  The claim requires the summed
kill counts to equal the number of non-warmup death events (1); the
aggregation counts nothing. -/
theorem teamkill_death_not_counted :
    sumValues (killsPerPlayer [⟨"A", "B", "T", "T", 0, false, 50⟩]) = 0 ∧
      (([⟨"A", "B", "T", "T", 0, false, 50⟩] : List KillEvent).filter
        (fun k => k.is_warmup_period == false)).length = 1 :=
  ⟨rfl, rfl⟩

/-- C5.  Converting a `RoundEnd` reason code goes through the fixed
table over the closed `RoundEndReason` set: every code in the table maps
to exactly its table entry, and every code outside the table fails with
`UnmappedEndReasonError` carrying that code — never a default enum
value. -/
theorem mapEndReason_total_via_table (code : Nat) :
    (∃ r, endReasonTable code = some r ∧ mapEndReason code = Except.ok r) ∨
      (endReasonTable code = none ∧
        mapEndReason code = Except.error ⟨code⟩) := by
  cases h : endReasonTable code with
  | some r =>
      exact Or.inl ⟨r, rfl, by simp [mapEndReason, h]⟩
  | none =>
      exact Or.inr ⟨rfl, by simp [mapEndReason, h]⟩

/-- C7.  The stats extraction is a pure function of the parsed demo
data: two runs over equal inputs produce equal leaderboard record sets.
(No definition in the pipeline takes a clock or any other ambient
input.) -/
theorem getLeaderBoard_deterministic (d1 d2 : ParsedDemoData) (h : d1 = d2) :
    getLeaderBoard d1 = getLeaderBoard d2 := by
  rw [h]

/-- C7 witness: determinism at a concrete one-player demo. -/
theorem getLeaderBoard_deterministic_witness :
    getLeaderBoard
        ⟨[⟨false, "player_team", false, 0, false, 2, 1, "A", "sidA"⟩],
          [⟨"A", "B", "CT", "T", 0, false, 50⟩],
          [⟨"B", "sidB", "A", 2, 3, (5 : Rat), false, 100⟩],
          [⟨"A", "flashbang", 7, 40⟩]⟩ =
      getLeaderBoard
        ⟨[⟨false, "player_team", false, 0, false, 2, 1, "A", "sidA"⟩],
          [⟨"A", "B", "CT", "T", 0, false, 50⟩],
          [⟨"B", "sidB", "A", 2, 3, (5 : Rat), false, 100⟩],
          [⟨"A", "flashbang", 7, 40⟩]⟩ :=
  getLeaderBoard_deterministic _ _ rfl

/-- C9.  `getPlayers` registers its handler but returns `all_players`
before any event is dispatched (no `ParseToEnd` before the `return`), so
it returns the empty list for every demo and `main` prints a player
count of 0 — even though the handler itself, once dispatched to, would
accumulate the rosters (third conjunct). -/
theorem getPlayers_always_empty :
    (∀ demoEvents : List GameStateSnap, getPlayers demoEvents = []) ∧
      (∀ demoEvents : List GameStateSnap, mainPlayerCount demoEvents = 0) ∧
      allPlayersAfterParse [⟨true, [⟨"P"⟩], [⟨"Q"⟩]⟩] = [⟨"P"⟩, ⟨"Q"⟩] :=
  ⟨fun _ => rfl, fun _ => rfl, rfl⟩

/-- C10.  The `PlayerHurt` handlers read `e.Attacker.Name` with no nil
guard: the handler body succeeds whenever the event carries an attacker,
and the nil-dereference branch is reachable for an attackerless event
(world or fall damage). -/
theorem injuryRow_requires_attacker :
    (∀ (e : HurtEvent) (t : Int), e.attacker.isSome = true →
        (injuryRow e t).isOk = true) ∧
      injuryRow ⟨"B", none, 5, 0⟩ 3 = Except.error GoPanic.nilPointerDereference := by
  constructor
  · intro e t h
    obtain ⟨a, ha⟩ := Option.isSome_iff_exists.mp h
    simp [injuryRow, attackerName, ha, Except.isOk, Except.toBool]
  · rfl

/-- C10 witness: a concrete event with an attacker present produces a
row. -/
theorem injuryRow_requires_attacker_witness :
    ((⟨"B", some ⟨"A"⟩, 5, 0⟩ : HurtEvent).attacker.isSome = true) ∧
      (injuryRow ⟨"B", some ⟨"A"⟩, 5, 0⟩ 3).isOk = true :=
  ⟨rfl, injuryRow_requires_attacker.1 ⟨"B", some ⟨"A"⟩, 5, 0⟩ 3 rfl⟩

/-- C6.  `getMatchKills` returns the match's kill records sorted by the
key `(roundNumber, tick)`: whenever record `r1` precedes record `r2` in
the returned list, either `r1.roundNumber < r2.roundNumber`, or the
round numbers are equal and `r1.tick ≤ r2.tick`. -/
theorem getMatchKills_sorted (matchTable : List String) (rows : List KillRow)
    (matchId : String) (l : List Kill)
    (h : getMatchKills matchTable rows matchId = Except.ok l) :
    l.Pairwise (fun r1 r2 =>
      r1.roundNumber < r2.roundNumber ∨
        (r1.roundNumber = r2.roundNumber ∧ r1.tick ≤ r2.tick)) := by
  unfold getMatchKills at h
  split at h
  · injection h with h'
    subst h'
    have hs : List.Pairwise killRowLE (getKillsByMatchId rows matchId) :=
      List.sorted_insertionSort killRowLE _
    have h1 : List.Pairwise killRowLE
        ((getKillsByMatchId rows matchId).enum.map Prod.snd) := by
      rw [List.enum_map_snd]
      exact hs
    have h2 := List.pairwise_map.mp h1
    rw [List.pairwise_map]
    exact h2.imp (fun hab => hab)
  · cases h

/-- C6 witness: two rows inserted out of order come back sorted. -/
theorem getMatchKills_sorted_witness :
    ∃ l, getMatchKills ["m1"]
        [⟨"m1", 2, 10, "s1", "A", "CT", "s2", "B", "T", "ak47",
            false, false, false, false, false, none, none, false⟩,
          ⟨"m1", 1, 99, "s2", "B", "T", "s1", "A", "CT", "awp",
            true, false, false, false, false, none, none, false⟩]
        "m1" = Except.ok l ∧
      l.Pairwise (fun r1 r2 =>
        r1.roundNumber < r2.roundNumber ∨
          (r1.roundNumber = r2.roundNumber ∧ r1.tick ≤ r2.tick)) := by
  refine ⟨_, rfl, ?_⟩
  exact getMatchKills_sorted ["m1"] _ "m1" _ rfl

theorem wupdate_preserves (m : List (String × WeaponAggregate))
    (r : PlayerWeaponRow)
    (hm : ∀ e ∈ m, e.2.total_headshots ≤ e.2.total_kills ∧
        e.2.total_hits ≤ e.2.total_shots)
    (hr : r.headshots ≤ r.kills ∧ r.hits ≤ r.shots) :
    ∀ e ∈ wupdate m r, e.2.total_headshots ≤ e.2.total_kills ∧
        e.2.total_hits ≤ e.2.total_shots := by
  induction m with
  | nil =>
      intro e he
      simp only [wupdate, List.mem_singleton] at he
      subst he
      simp only [waddRow, zeroAggregate]
      omega
  | cons hd tl ih =>
      obtain ⟨w, a⟩ := hd
      intro e he
      have hhd := hm (w, a) (List.mem_cons_self _ _)
      have htl : ∀ e ∈ tl, e.2.total_headshots ≤ e.2.total_kills ∧
          e.2.total_hits ≤ e.2.total_shots :=
        fun e he => hm e (List.mem_cons_of_mem _ he)
      by_cases hw : w = r.weapon
      · simp only [wupdate, if_pos hw] at he
        rcases List.mem_cons.mp he with h | h
        · subst h
          simp only [waddRow]
          simp only at hhd
          omega
        · exact htl e h
      · simp only [wupdate, if_neg hw] at he
        rcases List.mem_cons.mp he with h | h
        · subst h
          exact hhd
        · exact ih htl e h

theorem wfold_preserves (records : List PlayerWeaponRow)
    (m : List (String × WeaponAggregate))
    (hm : ∀ e ∈ m, e.2.total_headshots ≤ e.2.total_kills ∧
        e.2.total_hits ≤ e.2.total_shots)
    (hrec : ∀ r ∈ records, r.headshots ≤ r.kills ∧ r.hits ≤ r.shots) :
    ∀ e ∈ records.foldl wupdate m, e.2.total_headshots ≤ e.2.total_kills ∧
        e.2.total_hits ≤ e.2.total_shots := by
  induction records generalizing m with
  | nil => exact hm
  | cons r rs ih =>
      simp only [List.foldl_cons]
      exact ih (wupdate m r)
        (wupdate_preserves m r hm (hrec r (List.mem_cons_self _ _)))
        (fun x hx => hrec x (List.mem_cons_of_mem _ hx))

/-- C8.  If every per-player-per-weapon stat row satisfies
`headshots ≤ kills` and `hits ≤ shots`, then every per-weapon career
aggregate produced by `getWeaponStatsBySteamId` (which sums the counters
across matches) satisfies
`total_headshots ≤ total_kills` and `total_hits ≤ total_shots`. -/
theorem getWeaponStats_preserves_invariants (rows : List PlayerWeaponRow)
    (h : ∀ r ∈ rows, r.headshots ≤ r.kills ∧ r.hits ≤ r.shots)
    (steamId : String) :
    ∀ agg ∈ getWeaponStatsBySteamId rows steamId,
      agg.total_headshots ≤ agg.total_kills ∧ agg.total_hits ≤ agg.total_shots := by
  intro agg hagg
  unfold getWeaponStatsBySteamId at hagg
  simp only [] at hagg
  have hmem : agg ∈
      ((rows.filter (fun r => r.steam_id == steamId)).foldl wupdate []).map
        Prod.snd :=
    (List.perm_insertionSort aggLE _).mem_iff.mp hagg
  obtain ⟨⟨w, a⟩, hin, rfl⟩ := List.mem_map.mp hmem
  exact wfold_preserves _ [] (fun e he => absurd he (List.not_mem_nil e))
    (fun r hr => h r (List.mem_of_mem_filter hr)) _ hin

/-- C8 witness: two ak47 rows satisfying the inequalities aggregate to a
record that still satisfies them. -/
theorem getWeaponStats_preserves_invariants_witness :
    (∀ r ∈ ([⟨"s1", "m1", "ak47", 5, 2, 100, 30, 10⟩,
        ⟨"s1", "m2", "ak47", 3, 1, 50, 20, 9⟩] : List PlayerWeaponRow),
      r.headshots ≤ r.kills ∧ r.hits ≤ r.shots) ∧
    (∀ agg ∈ getWeaponStatsBySteamId
        [⟨"s1", "m1", "ak47", 5, 2, 100, 30, 10⟩,
          ⟨"s1", "m2", "ak47", 3, 1, 50, 20, 9⟩] "s1",
      agg.total_headshots ≤ agg.total_kills ∧
        agg.total_hits ≤ agg.total_shots) :=
  ⟨by decide,
   getWeaponStats_preserves_invariants _ (by decide) "s1"⟩

theorem mapGet_foldl_bump (l : List GrenadeRow) (m : List (String × Nat))
    (p : String) :
    (mapGet (l.foldl (fun m flash => bump m flash.name) m) p).getD 0 =
      (mapGet m p).getD 0 + (l.filter (fun g => g.name == p)).length := by
  induction l generalizing m with
  | nil => simp
  | cons g rest ih =>
      by_cases h : g.name = p
      · have hb : (g.name == p) = true := by simp [h]
        have hfc : (g :: rest).filter (fun x => x.name == p) =
            g :: rest.filter (fun x => x.name == p) := by
          simp [List.filter_cons, hb]
        simp only [List.foldl_cons, ih, mapGet_bump, hfc, List.length_cons, if_pos h]
        omega
      · have hb : (g.name == p) = false := by simp [h]
        have hfc : (g :: rest).filter (fun x => x.name == p) =
            rest.filter (fun x => x.name == p) := by
          simp [List.filter_cons, hb]
        simp only [List.foldl_cons, ih, mapGet_bump, hfc, if_neg h]
        omega

theorem card_insert_eq_card_erase_succ (a : Nat) (T : Finset Nat) :
    (insert a T).card = (T.erase a).card + 1 := by
  by_cases h : a ∈ T
  · rw [Finset.insert_eq_self.mpr h]
    exact (Finset.card_erase_add_one h).symm
  · rw [Finset.card_insert_of_not_mem h, Finset.erase_eq_of_not_mem h]

/-- Counting the rows of one thrower among the entity-deduplicated rows
gives the number of distinct entity ids among that thrower's rows,
provided rows sharing an entity id share the thrower name. -/
theorem distinct_filter_name_length (l : List GrenadeRow) (p : String) :
    (∀ g1 ∈ l, ∀ g2 ∈ l, g1.entity_id = g2.entity_id → g1.name = g2.name) →
      ((distinctByEntity l).filter (fun g => g.name == p)).length =
        ((l.filter (fun g => g.name == p)).map
          (fun g => g.entity_id)).toFinset.card := by
  induction l using distinctByEntity.induct with
  | case1 =>
      intro _
      simp [distinctByEntity]
  | case2 g rest ih =>
      intro hcons
      have hcons' :
          ∀ g1 ∈ rest.filter (fun h => !(h.entity_id == g.entity_id)),
            ∀ g2 ∈ rest.filter (fun h => !(h.entity_id == g.entity_id)),
              g1.entity_id = g2.entity_id → g1.name = g2.name :=
        fun g1 h1 g2 h2 he =>
          hcons g1 (List.mem_cons_of_mem _ (List.mem_of_mem_filter h1))
            g2 (List.mem_cons_of_mem _ (List.mem_of_mem_filter h2)) he
      have IH := ih hcons'
      by_cases hg : g.name = p
      · have hset :
            (((rest.filter (fun h => !(h.entity_id == g.entity_id))).filter
                (fun x => x.name == p)).map (fun x => x.entity_id)).toFinset =
              ((rest.filter (fun x => x.name == p)).map
                (fun x => x.entity_id)).toFinset.erase g.entity_id := by
          ext x
          simp only [List.filter_filter, List.mem_toFinset, List.mem_map,
            List.mem_filter, Finset.mem_erase, Bool.and_eq_true, beq_iff_eq,
            Bool.not_eq_true', beq_eq_false_iff_ne]
          constructor
          · rintro ⟨a, ⟨ha, hname, hne⟩, rfl⟩
            exact ⟨hne, a, ⟨ha, hname⟩, rfl⟩
          · rintro ⟨hne, a, ⟨ha, hname⟩, rfl⟩
            exact ⟨a, ⟨ha, hname, hne⟩, rfl⟩
        have hb : (g.name == p) = true := by simp [hg]
        have hL : (distinctByEntity (g :: rest)).filter (fun x => x.name == p) =
            g :: (distinctByEntity
              (rest.filter (fun h => !(h.entity_id == g.entity_id)))).filter
                (fun x => x.name == p) := by
          rw [distinctByEntity]
          simp [List.filter_cons, hb]
        have hR : (g :: rest).filter (fun x => x.name == p) =
            g :: rest.filter (fun x => x.name == p) := by
          simp [List.filter_cons, hb]
        rw [hL, hR, List.length_cons, List.map_cons, List.toFinset_cons, IH, hset,
          card_insert_eq_card_erase_succ]
      · have hlists :
            (rest.filter (fun h => !(h.entity_id == g.entity_id))).filter
                (fun x => x.name == p) =
              rest.filter (fun x => x.name == p) := by
          rw [List.filter_filter]
          refine List.filter_congr ?_
          intro a ha
          by_cases han : a.name = p
          · have hne : ¬ a.entity_id = g.entity_id := fun he =>
              hg (by
                have := hcons a (List.mem_cons_of_mem _ ha) g
                  (List.mem_cons_self _ _) he
                rw [← this, han])
            simp [han, hne]
          · simp [han]
        have hb : (g.name == p) = false := by simp [hg]
        have hL : (distinctByEntity (g :: rest)).filter (fun x => x.name == p) =
            (distinctByEntity
              (rest.filter (fun h => !(h.entity_id == g.entity_id)))).filter
                (fun x => x.name == p) := by
          rw [distinctByEntity]
          simp [List.filter_cons, hb]
        have hR : (g :: rest).filter (fun x => x.name == p) =
            rest.filter (fun x => x.name == p) := by
          simp [List.filter_cons, hb]
        rw [hL, hR, IH, hlists]

/-- C3.  A player's `flashes_thrown` count equals the number of distinct
flashbang grenade entity ids among that player's rows: trajectory rows
are deduplicated by `entity_id` before counting, so one flashbang counts
once no matter how many rows (or blinded victims) it produces.  The
hypothesis states the data-integrity fact that rows of one grenade
entity all carry the thrower's name. -/
theorem flashesThrown_counts_distinct_grenades (grenades : List GrenadeRow)
    (hcons : ∀ g1 ∈ grenades, ∀ g2 ∈ grenades,
        g1.entity_id = g2.entity_id → g1.name = g2.name)
    (p : String) :
    (mapGet (getFlashesThrownByPlayer grenades) p).getD 0 =
      (((grenades.filter (fun g => g.grenade_type == "flashbang")).filter
          (fun g => g.name == p)).map (fun g => g.entity_id)).toFinset.card := by
  unfold getFlashesThrownByPlayer
  simp only []
  rw [mapGet_foldl_bump]
  simp only [mapGet, Option.getD_none, Nat.zero_add]
  exact distinct_filter_name_length _ p
    (fun g1 h1 g2 h2 he =>
      hcons g1 (List.mem_of_mem_filter h1) g2 (List.mem_of_mem_filter h2) he)

/-- C3 witness: two trajectory rows of one flashbang entity plus a
second flashbang and a smoke; the thrower's count is 2, the number of
distinct flashbang entity ids. -/
theorem flashesThrown_counts_distinct_grenades_witness :
    (∀ g1 ∈ ([⟨"A", "flashbang", 7, 10⟩, ⟨"A", "flashbang", 7, 11⟩,
          ⟨"A", "flashbang", 8, 12⟩, ⟨"B", "smokegrenade", 9, 13⟩] :
          List GrenadeRow),
      ∀ g2 ∈ ([⟨"A", "flashbang", 7, 10⟩, ⟨"A", "flashbang", 7, 11⟩,
          ⟨"A", "flashbang", 8, 12⟩, ⟨"B", "smokegrenade", 9, 13⟩] :
          List GrenadeRow),
        g1.entity_id = g2.entity_id → g1.name = g2.name) ∧
    (mapGet (getFlashesThrownByPlayer
        [⟨"A", "flashbang", 7, 10⟩, ⟨"A", "flashbang", 7, 11⟩,
          ⟨"A", "flashbang", 8, 12⟩, ⟨"B", "smokegrenade", 9, 13⟩]) "A").getD 0 =
      (((([⟨"A", "flashbang", 7, 10⟩, ⟨"A", "flashbang", 7, 11⟩,
          ⟨"A", "flashbang", 8, 12⟩, ⟨"B", "smokegrenade", 9, 13⟩] :
            List GrenadeRow).filter
          (fun g => g.grenade_type == "flashbang")).filter
            (fun g => g.name == "A")).map (fun g => g.entity_id)).toFinset.card ∧
    (mapGet (getFlashesThrownByPlayer
        [⟨"A", "flashbang", 7, 10⟩, ⟨"A", "flashbang", 7, 11⟩,
          ⟨"A", "flashbang", 8, 12⟩, ⟨"B", "smokegrenade", 9, 13⟩]) "A").getD 0
      = 2 := by
  refine ⟨by decide, flashesThrown_counts_distinct_grenades _ (by decide) "A", ?_⟩
  simp [getFlashesThrownByPlayer, distinctByEntity, bump, mapGet]

end Stattrak
